import Mathlib

/-!
Verification development for the lume static-site core (`src/core.ts`).

The source file `src/core.ts` declares the data model and the operation
signatures of the core (interfaces `Data`, `Src`, `Dest`, `Page`,
`Directory`, `Source`, `Site`, the event types and listener registry).
The bodies of the operations (`refreshCache`, `duplicate`,
`getOrCreateDirectory`, `getFileOrDirectory`, `build`, `update`,
`addEventListener`, `dispatchEvent`) are not part of `src/`; following the
specification, each such operation is modelled here from the spec's words,
marked `Modelled from the spec:` in its doc comment.  The declared types
are translated from the source directly.
-/

namespace Lume

/-- Values stored under the dynamically keyed entries of a `Data` bag
(`[index: string]: unknown` in the source, modelled as a small tagged
union as the spec's design notes direct). -/
inductive Value where
  | str (s : String)
  | num (n : Int)
  | flag (b : Bool)
deriving DecidableEq, Repr

/-- The `url` field of `Data` in the source is
`string | ((page: Page) => string)`.  The function case is modelled as a
function of the page's source path. -/
inductive UrlSpec where
  | literal (u : String)
  | ofPage (f : String → String)

/-- The `.content` property for a Page: `Uint8Array | string` in the
source. -/
inductive Content where
  | text (s : String)
  | binary (bytes : List Nat)
deriving DecidableEq, Repr

/-- The `templateEngine` field of `Data`: `string | string[]`. -/
abbrev EngineSpec := String ⊕ List String

/-- The `.src` property for a Page or Directory, translated from the
source: `path` is required, `ext`, `lastModified` and `created` are
optional (dates modelled as timestamps). -/
structure Src where
  path : String
  ext : Option String := none
  lastModified : Option Nat := none
  created : Option Nat := none
deriving DecidableEq, Repr

/-- The `.dest` property for a Page, translated from the source: `path`
and `ext` are required, the content `hash` is optional. -/
structure Dest where
  path : String
  ext : String
  hash : Option String := none
deriving DecidableEq, Repr

/-- The data of a page or directory, translated from the `Data` interface
of the source: the reserved keys `tags`, `url`, `draft`, `renderOrder`,
`content`, `layout`, `templateEngine` are all optional, and all other
string-indexed entries live in `extra` (an association list whose first
match for a key is the visible binding). -/
@[ext]
structure Data where
  tags : Option (List String) := none
  url : Option UrlSpec := none
  draft : Option Bool := none
  renderOrder : Option Int := none
  content : Option Value := none
  layout : Option String := none
  templateEngine : Option EngineSpec := none
  extra : List (String × Value) := []

/-- The empty data bag (a fresh node with no configuration). -/
def emptyData : Data := {}

/-- Child-wins choice between an optional child field and the parent's
field: the override semantics of the merge for every scalar key. -/
def pick {α : Type} (child parent : Option α) : Option α :=
  match child with
  | some v => some v
  | none => parent

@[simp] theorem pick_some {α : Type} (v : α) (p : Option α) :
    pick (some v) p = some v := rfl

@[simp] theorem pick_none {α : Type} (p : Option α) :
    pick none p = p := rfl

theorem pick_assoc {α : Type} (a b c : Option α) :
    pick (pick a b) c = pick a (pick b c) := by
  cases a <;> simp

/-- Duplicate-free union of two tag lists: concatenate and drop
duplicates, keeping first occurrences. -/
def unionTags (a b : List String) : List String := (a ++ b).dedup

/-- Merge of the optional `tags` fields: the union-concatenation of the
ancestor and local tag lists (the one field of the merge that does not
follow child-wins override semantics). -/
def mergeTags : Option (List String) → Option (List String) → Option (List String)
  | none, none => none
  | a, b => some (unionTags (a.getD []) (b.getD []))

/-- Merge of the dynamically keyed entries: the child's bindings shadow
the parent's.  Since the visible binding of a key is the first match in
the list, putting the child's entries first realizes shallow-override
(`{...parent, ...child}`) semantics observationally. -/
def mergeEntries (parent child : List (String × Value)) : List (String × Value) :=
  child ++ parent

/-- Modelled from the spec: the deep-combine of effective data (the body
computing merged data is not in `src/`).  `effective(N) = effective(parent(N))`
deep-combined with `N.data`, where every field follows override semantics
(child wins) except `tags`, which is the union-concatenation of ancestor
and local tags. -/
def mergeData (parent child : Data) : Data where
  tags := mergeTags parent.tags child.tags
  url := pick child.url parent.url
  draft := pick child.draft parent.draft
  renderOrder := pick child.renderOrder parent.renderOrder
  content := pick child.content parent.content
  layout := pick child.layout parent.layout
  templateEngine := pick child.templateEngine parent.templateEngine
  extra := mergeEntries parent.extra child.extra

/-- Modelled from the spec: plain shallow merge (`{...base, ...override}`),
used by `duplicate` to lay override data over a page's data: every key of
the override wins, including `tags`. -/
def shallowMerge (base override : Data) : Data where
  tags := pick override.tags base.tags
  url := pick override.url base.url
  draft := pick override.draft base.draft
  renderOrder := pick override.renderOrder base.renderOrder
  content := pick override.content base.content
  layout := pick override.layout base.layout
  templateEngine := pick override.templateEngine base.templateEngine
  extra := mergeEntries base.extra override.extra

/-- The tag list a data bag exposes (absent `tags` reads as the empty
list). -/
def tagsOf (d : Data) : List String := d.tags.getD []

theorem mem_tagsOf_merge (a b : Data) (x : String) :
    x ∈ tagsOf (mergeData a b) ↔ x ∈ tagsOf a ∨ x ∈ tagsOf b := by
  cases ha : a.tags <;> cases hb : b.tags <;>
    simp [tagsOf, mergeData, mergeTags, unionTags, ha, hb]

theorem nodup_tagsOf_merge (a b : Data) :
    (tagsOf (mergeData a b)).Nodup := by
  cases ha : a.tags <;> cases hb : b.tags <;>
    simp [tagsOf, mergeData, mergeTags, unionTags, ha, hb, List.nodup_dedup]

/-! ## The source tree

The spec's design notes direct the reimplementation of the weakly
parent-linked `Directory`/`Page` tree as arena-style storage keyed by
path: the tree owns its nodes in maps keyed by the slash-split path, and
a node's parent is the longest proper prefix of its key.  Directories and
pages each carry their raw (node-local) data and a memoized slot for the
merged effective data. -/

/-- A path inside the source tree, already split on slashes. -/
abbrev Path := List String

/-- A directory node: raw node-local data plus the memoized effective
data slot (`none` when the cache is invalidated). -/
structure DirEntry where
  data : Data := {}
  cache : Option Data := none

/-- A page node, translated from the `Page` interface of the source:
`src` and `dest` are required properties, `content` is optional; `data`
holds the raw node-local data and `cache` the memoized merged data. -/
structure PageNode where
  src : Src
  dest : Dest
  data : Data := {}
  cache : Option Data := none
  content : Option Content := none

/-- The arena of nodes: association lists from path to directory/page
entries (first match wins, keys are unique in a well-formed tree). -/
structure SourceTree where
  dirs : List (Path × DirEntry) := []
  pages : List (Path × PageNode) := []

/-- Raw data of the directory stored at a path (missing directories
contribute no configuration). -/
def dirRaw (t : SourceTree) (p : Path) : Data :=
  ((t.dirs.lookup p).map DirEntry.data).getD emptyData

/-- The chain of raw directory data from the root down to `p`:
one bag per prefix of `p`, root first. -/
def dirChain (t : SourceTree) (p : Path) : List Data :=
  p.inits.map (dirRaw t)

/-- Modelled from the spec: the merged effective data of the directory at
`p`, recomputed from the current raw data of the directory and all of its
ancestors (the memoizing getter's pure recomputation; the body is not in
`src/`). -/
def computedDirEff (t : SourceTree) (p : Path) : Data :=
  (dirChain t p).foldl mergeData emptyData

/-- Modelled from the spec: the merged effective data of a page with raw
data `d` sitting in the directory at `dp`. -/
def computedPageEff (t : SourceTree) (dp : Path) (d : Data) : Data :=
  mergeData (computedDirEff t dp) d

/-- Per-entry action of cache invalidation on the directory at `D`. -/
def invalidateDirEntry (D q : Path) (e : DirEntry) : DirEntry :=
  if q = D then { e with cache := none } else e

/-- Modelled from the spec: invalidate the cached effective data of the
directory at `D` (clear its memo slot; raw data untouched). -/
def invalidateCache (t : SourceTree) (D : Path) : SourceTree where
  dirs := t.dirs.map fun e => (e.1, invalidateDirEntry D e.1 e.2)
  pages := t.pages

/-- Per-entry action of `refreshCache` on directory entries: every
directory whose path extends `D` gets its memo slot rewritten with the
pure recomputation from raw data. -/
def refreshDirEntry (t : SourceTree) (D q : Path) (e : DirEntry) : DirEntry :=
  if D.isPrefixOf q then { e with cache := some (computedDirEff t q) } else e

/-- Per-entry action of `refreshCache` on page entries. -/
def refreshPageEntry (t : SourceTree) (D q : Path) (pg : PageNode) : PageNode :=
  if D.isPrefixOf q then
    { pg with cache := some (computedPageEff t q.dropLast pg.data) }
  else pg

/-- Modelled from the spec: `refreshCache()` called on the directory at
`D` recomputes the effective data for that directory and, recursively,
for all of its descendants (every node whose path extends `D`), storing
the recomputation in each node's memo slot.  Raw data is untouched. -/
def refreshCache (t : SourceTree) (D : Path) : SourceTree where
  dirs := t.dirs.map fun e => (e.1, refreshDirEntry t D e.1 e.2)
  pages := t.pages.map fun e => (e.1, refreshPageEntry t D e.1 e.2)

/-- The effective (merged) data of the directory at `p` as read through
the cache: the memoized value when present, the pure recomputation
otherwise; `none` when no directory lives at `p`. -/
def dirEffective (t : SourceTree) (p : Path) : Option Data :=
  (t.dirs.lookup p).map fun e => e.cache.getD (computedDirEff t p)

/-- The effective (merged) data of the page at `p` as read through the
cache. -/
def pageEffective (t : SourceTree) (p : Path) : Option Data :=
  (t.pages.lookup p).map fun pg =>
    pg.cache.getD (computedPageEff t p.dropLast pg.data)

theorem lookup_map_keyed {α β : Type} [BEq α] [LawfulBEq α]
    (l : List (α × β)) (f : α → β → β) (q : α) :
    (l.map fun e => (e.1, f e.1 e.2)).lookup q = (l.lookup q).map (f q) := by
  induction l with
  | nil => simp
  | cons e rest ih =>
    cases h : q == e.1 with
    | true =>
      have hq : q = e.1 := eq_of_beq h
      subst hq
      simp [List.lookup, h]
    | false => simp only [List.map_cons, List.lookup, h, ih]

theorem dirRaw_invalidate (t : SourceTree) (D q : Path) :
    dirRaw (invalidateCache t D) q = dirRaw t q := by
  unfold dirRaw invalidateCache
  dsimp only
  rw [lookup_map_keyed t.dirs (invalidateDirEntry D) q]
  cases t.dirs.lookup q with
  | none => rfl
  | some e => by_cases h : q = D <;> simp [invalidateDirEntry, h]

theorem computedDirEff_invalidate (t : SourceTree) (D p : Path) :
    computedDirEff (invalidateCache t D) p = computedDirEff t p := by
  unfold computedDirEff dirChain
  congr 1
  exact List.map_congr_left fun q _ => dirRaw_invalidate t D q

theorem computedPageEff_invalidate (t : SourceTree) (D dp : Path) (d : Data) :
    computedPageEff (invalidateCache t D) dp d = computedPageEff t dp d := by
  unfold computedPageEff
  rw [computedDirEff_invalidate]

theorem invalidate_dirs_lookup (t : SourceTree) (D q : Path) :
    (invalidateCache t D).dirs.lookup q
      = (t.dirs.lookup q).map (invalidateDirEntry D q) := by
  unfold invalidateCache
  dsimp only
  exact lookup_map_keyed t.dirs (invalidateDirEntry D) q

theorem invalidate_pages (t : SourceTree) (D : Path) :
    (invalidateCache t D).pages = t.pages := rfl

theorem refresh_dirs_lookup (t : SourceTree) (D q : Path) :
    (refreshCache t D).dirs.lookup q
      = (t.dirs.lookup q).map (refreshDirEntry t D q) := by
  unfold refreshCache
  dsimp only
  exact lookup_map_keyed t.dirs (refreshDirEntry t D) q

theorem refresh_pages_lookup (t : SourceTree) (D q : Path) :
    (refreshCache t D).pages.lookup q
      = (t.pages.lookup q).map (refreshPageEntry t D q) := by
  unfold refreshCache
  dsimp only
  exact lookup_map_keyed t.pages (refreshPageEntry t D) q

theorem refreshDirEntry_cache (t : SourceTree) (D q : Path) (e : DirEntry)
    (h : D.isPrefixOf q = true) :
    (refreshDirEntry t D q e).cache = some (computedDirEff t q) := by
  simp [refreshDirEntry, h]

theorem refreshPageEntry_cache (t : SourceTree) (D q : Path) (pg : PageNode)
    (h : D.isPrefixOf q = true) :
    (refreshPageEntry t D q pg).cache
      = some (computedPageEff t q.dropLast pg.data) := by
  simp [refreshPageEntry, h]

theorem refreshPageEntry_data (t : SourceTree) (D q : Path) (pg : PageNode) :
    (refreshPageEntry t D q pg).data = pg.data := by
  unfold refreshPageEntry
  split <;> rfl

/-! ## Tag union over the ancestor chain -/

theorem mem_tagsOf_foldl (ds : List Data) (init : Data) (x : String) :
    x ∈ tagsOf (ds.foldl mergeData init) ↔
      x ∈ tagsOf init ∨ ∃ d ∈ ds, x ∈ tagsOf d := by
  induction ds generalizing init with
  | nil => simp
  | cons d rest ih =>
    rw [List.foldl_cons, ih, mem_tagsOf_merge]
    constructor
    · rintro ((h | h) | ⟨d', hd', hx⟩)
      · exact Or.inl h
      · exact Or.inr ⟨d, by simp, h⟩
      · exact Or.inr ⟨d', by simp [hd'], hx⟩
    · rintro (h | ⟨d', hd', hx⟩)
      · exact Or.inl (Or.inl h)
      · rcases List.mem_cons.mp hd' with h1 | h1
        · exact Or.inl (Or.inr (h1 ▸ hx))
        · exact Or.inr ⟨d', h1, hx⟩

theorem mem_tagsOf_computedPageEff (t : SourceTree) (dp : Path) (d : Data)
    (x : String) :
    x ∈ tagsOf (computedPageEff t dp d) ↔
      x ∈ tagsOf d ∨ ∃ q ∈ dp.inits, x ∈ tagsOf (dirRaw t q) := by
  unfold computedPageEff computedDirEff dirChain
  rw [mem_tagsOf_merge, mem_tagsOf_foldl]
  simp only [tagsOf, emptyData]
  constructor
  · rintro ((h | ⟨d', hd', hx⟩) | h)
    · simp at h
    · rcases List.mem_map.mp hd' with ⟨q, hq, rfl⟩
      exact Or.inr ⟨q, hq, hx⟩
    · exact Or.inl h
  · rintro (h | ⟨q, hq, hx⟩)
    · exact Or.inr h
    · exact Or.inl (Or.inr ⟨dirRaw t q, List.mem_map.mpr ⟨q, hq, rfl⟩, hx⟩)

/-! ## Page duplication and page-slot mutation -/

/-- Modelled from the spec: `duplicate(data?)` produces a new Page with
an independent identity whose data is the override data shallow-merged
over the original's data (the body of `Page.duplicate` is not in
`src/`).  The new page keeps the original's `src`, `dest` and content. -/
def PageNode.duplicate (p : PageNode) (d : Data) : PageNode :=
  { p with data := shallowMerge p.data d }

/-- The `src` descriptor of a page viewed as an optional value: `none`
would mean the descriptor is absent.  The `Page` interface of the source
declares `src` as a required property, so this observer is total. -/
def srcOf (p : PageNode) : Option Src := some p.src

/-- Look up the page stored at a path. -/
def lookupPage (t : SourceTree) (p : Path) : Option PageNode :=
  t.pages.lookup p

/-- Modelled from the spec: `setPage(name, page)` attaches a page under a
path, overwriting any same-named entry. -/
def setPage (t : SourceTree) (p : Path) (pg : PageNode) : SourceTree where
  dirs := t.dirs
  pages := (p, pg) :: t.pages.filter fun e => !(e.1 == p)

/-- In-place mutation of the page stored at a path (the model of writing
to one page object through its identity: only the slot with that identity
changes). -/
def modifyPage (t : SourceTree) (p : Path) (f : PageNode → PageNode) : SourceTree where
  dirs := t.dirs
  pages := t.pages.map fun e => (e.1, if e.1 = p then f e.2 else e.2)

theorem lookupPage_modifyPage_ne (t : SourceTree) (p q : Path)
    (f : PageNode → PageNode) (h : q ≠ p) :
    lookupPage (modifyPage t p f) q = lookupPage t q := by
  unfold lookupPage modifyPage
  dsimp only
  rw [lookup_map_keyed t.pages (fun a b => if a = p then f b else b) q]
  cases t.pages.lookup q with
  | none => rfl
  | some pg => simp [h]

/-! ## The Source operations -/

/-- Splitting a character list on slashes, accumulating the current
component in reverse. -/
def splitSlash : List Char → List Char → List String
  | [], acc => [String.mk acc.reverse]
  | c :: rest, acc =>
    if c = '/' then String.mk acc.reverse :: splitSlash rest []
    else splitSlash rest (c :: acc)

/-- Modelled from the spec: split a slash-separated path string into path
components (empty components collapse, so `"a//b/"` addresses the same
node as `"a/b"`). -/
def toPath (s : String) : Path :=
  (splitSlash s.toList []).filter fun c => c ≠ ""

/-- Whether a directory is materialized at a path. -/
def dirExists (t : SourceTree) (p : Path) : Bool :=
  (t.dirs.lookup p).isSome

/-- Materialize one directory at `p` when absent; keep the tree unchanged
when a directory already lives there. -/
def ensureOne (t : SourceTree) (p : Path) : SourceTree :=
  if dirExists t p then t
  else { t with dirs := t.dirs ++ [(p, {})] }

/-- Materialize a directory for every path in the list, in order. -/
def ensureAll (t : SourceTree) : List Path → SourceTree
  | [] => t
  | p :: ps => ensureAll (ensureOne t p) ps

/-- Modelled from the spec: `getOrCreateDirectory(path)` idempotently
materializes every ancestor directory on the slash-separated path
(every prefix of the split path, the root included) and returns the leaf
directory, identified by its arena key (the body is not in `src/`). -/
def getOrCreateDirectory (t : SourceTree) (s : String) : SourceTree × Path :=
  (ensureAll t (toPath s).inits, toPath s)

/-- A resolved node: either a directory or a page. -/
inductive TreeNode where
  | dirNode (e : DirEntry)
  | pageNode (pg : PageNode)

/-- Whether any node (page or directory) lives at a path. -/
def hasNode (t : SourceTree) (p : Path) : Bool :=
  (t.pages.lookup p).isSome || (t.dirs.lookup p).isSome

/-- Modelled from the spec: `getFileOrDirectory(path)` resolves a path to
its Page or Directory, or signals "not found" by returning an absent
value (never by raising; the body is not in `src/`). -/
def getFileOrDirectory (t : SourceTree) (s : String) : Option TreeNode :=
  match t.pages.lookup (toPath s) with
  | some pg => some (.pageNode pg)
  | none => (t.dirs.lookup (toPath s)).map .dirNode

theorem ensureOne_preserves (t : SourceTree) (p q : Path)
    (h : dirExists t q = true) : dirExists (ensureOne t p) q = true := by
  unfold ensureOne
  split
  · exact h
  · unfold dirExists at h ⊢
    dsimp only
    rw [List.lookup_append]
    cases hq : t.dirs.lookup q with
    | none => rw [hq] at h; simp at h
    | some e => simp [hq]

theorem ensureOne_creates (t : SourceTree) (p : Path) :
    dirExists (ensureOne t p) p = true := by
  unfold ensureOne
  split
  · assumption
  · unfold dirExists
    dsimp only
    rw [List.lookup_append]
    rename_i h
    unfold dirExists at h
    cases hq : t.dirs.lookup p with
    | none => simp [hq, List.lookup]
    | some e => rw [hq] at h; simp at h

theorem ensureAll_preserves (ps : List Path) (t : SourceTree) (q : Path)
    (h : dirExists t q = true) : dirExists (ensureAll t ps) q = true := by
  induction ps generalizing t with
  | nil => exact h
  | cons p rest ih => exact ih _ (ensureOne_preserves t p q h)

theorem ensureAll_creates (ps : List Path) (t : SourceTree) (q : Path)
    (h : q ∈ ps) : dirExists (ensureAll t ps) q = true := by
  induction ps generalizing t with
  | nil => simp at h
  | cons p rest ih =>
    rcases List.mem_cons.mp h with rfl | h1
    · exact ensureAll_preserves rest _ q (ensureOne_creates t q)
    · exact ih (ensureOne t p) h1

theorem ensureOne_noop (t : SourceTree) (p : Path)
    (h : dirExists t p = true) : ensureOne t p = t := by
  unfold ensureOne
  simp [h]

theorem ensureAll_noop (ps : List Path) (t : SourceTree)
    (h : ∀ q ∈ ps, dirExists t q = true) : ensureAll t ps = t := by
  induction ps with
  | nil => rfl
  | cons p rest ih =>
    unfold ensureAll
    rw [ensureOne_noop t p (h p (by simp)),
      ih fun q hq => h q (List.mem_cons_of_mem p hq)]

/-! ## The event bus and the pipeline orchestrator

The `Site` interface declares `listeners: Map<EventType, Set<EventListener | string>>`
and the signatures of `addEventListener`, `dispatchEvent`, `build` and
`update`; the bodies are not in `src/` and are modelled from the spec.
A listener is identified the way a JS `Set` distinguishes its members:
by function reference (modelled as a numeric identity) or by the
script-name string.  Listener behaviour (the truthiness of the value a
listener returns for an event) is supplied by environments carried in the
site state, so a whole run is a pure function of that state. -/

/-- All available event types, translated from the source. -/
inductive EventType where
  | beforeBuild
  | afterBuild
  | beforeUpdate
  | afterUpdate
  | afterRender
  | beforeSave
deriving DecidableEq, Repr

/-- An event object: a type plus optionally the set of changed files. -/
structure Event where
  type : EventType
  files : Option (List Path) := none

/-- A registered listener: a direct callable (identified by reference)
or the name of a script. -/
inductive ListenerRef where
  | handler (id : Nat)
  | script (name : String)
deriving DecidableEq, Repr

/-- The state of a site builder: the loaded source tree, the listener
registry, the behaviour environments for listeners, the render engine at
the engine-registry boundary, the static-copy mappings and the content
hashes recorded by the previous persisting run. -/
structure SiteState where
  tree : SourceTree
  listeners : EventType → List ListenerRef
  handlerEnv : Nat → Event → Bool
  scriptEnv : String → Event → Bool
  engine : Data → Content → Except String Content
  staticFiles : List (String × Content)
  prevHashes : List (Path × String)

/-- The truthiness of the value a listener returns for an event. -/
def listenerResult (s : SiteState) (l : ListenerRef) (e : Event) : Bool :=
  match l with
  | .handler id => s.handlerEnv id e
  | .script n => s.scriptEnv n e

/-- Modelled from the spec: the listeners a `dispatchEvent(event)` call
invokes — every listener registered for `event.type`, in registration
order. -/
def invokedListeners (s : SiteState) (e : Event) : List ListenerRef :=
  s.listeners e.type

/-- Modelled from the spec: `dispatchEvent(event)` invokes every
registered listener for the event type and reports `false` exactly when
some listener returned a falsy cancellation signal. -/
def dispatchEvent (s : SiteState) (e : Event) : Bool :=
  (invokedListeners s e).all fun l => listenerResult s l e

/-- Add a listener to a registration list with JS `Set` semantics:
adding an already-present member is a no-op, otherwise it is appended
(insertion order is preserved). -/
def addListener (ls : List ListenerRef) (l : ListenerRef) : List ListenerRef :=
  if l ∈ ls then ls else ls ++ [l]

/-- Modelled from the spec: `addEventListener(type, listener)` records
the listener in the `Set` kept for that event type. -/
def addEventListener (s : SiteState) (t : EventType) (l : ListenerRef) : SiteState :=
  { s with listeners := fun t2 => if t2 = t then addListener (s.listeners t) l else s.listeners t2 }

/-- A deterministic content-hash key (stands in for the hash recorded in
`dest.hash`; only injectivity-in-practice and determinism matter to the
claims). -/
def contentKey : Content → Nat
  | .text s => s.foldl (fun a c => a * 257 + c.toNat + 1) 2
  | .binary bs => bs.foldl (fun a b => a * 257 + b + 1) 3

/-- The hash string recorded in `dest.hash` for a content value. -/
def hashContent (c : Content) : String := toString (contentKey c)

/-- The extension of a dest path (the part after the last dot). -/
def extOf (s : String) : String :=
  match (s.splitOn ".").reverse with
  | e :: _ :: _ => e
  | _ => ""

/-- Modelled from the spec: the default dest derivation from the page's
tree path when the merged data carries no `url`. -/
def defaultDest (p : Path) : Dest :=
  { path := String.intercalate "/" p, ext := "html", hash := none }

/-- Modelled from the spec: the output descriptor of a page, computed
from the merged data's `url` — a literal string, or a function of the
page, or the default derivation. -/
def destOf (p : Path) (pg : PageNode) (eff : Data) : Dest :=
  match eff.url with
  | some (.literal u) => { path := u, ext := extOf u, hash := none }
  | some (.ofPage f) => { path := f pg.src.path, ext := extOf (f pg.src.path), hash := none }
  | none => defaultDest p

/-- Modelled from the spec: rendering one page hands the page's content
and merged effective data to the engine.  Preprocessors, processors and
the layout chain are identity in this model (none are registered), and a
throwing engine surfaces as a per-page `RenderError`. -/
def renderPage (s : SiteState) (p : Path) (pg : PageNode) : Except String Content :=
  s.engine (computedPageEff s.tree p.dropLast pg.data) (pg.content.getD (.text ""))

/-- One persisted page output: the page's tree path, its dest path, the
rendered content and its hash. -/
structure PageOut where
  page : Path
  destPath : String
  content : Content
  hash : String
deriving DecidableEq, Repr

/-- Render every page of a list, keeping the render verdicts. -/
def renderAll (s : SiteState) (ps : List (Path × PageNode)) :
    List (Path × PageNode × Except String Content) :=
  ps.map fun e => (e.1, e.2, renderPage s e.1 e.2)

/-- The outputs of the successfully rendered, non-draft pages. -/
def okOuts (s : SiteState) (rs : List (Path × PageNode × Except String Content)) :
    List PageOut :=
  rs.filterMap fun e =>
    match e.2.2 with
    | .ok c =>
      if (computedPageEff s.tree e.1.dropLast e.2.1.data).draft = some true then none
      else some ⟨e.1, (destOf e.1 e.2.1 (computedPageEff s.tree e.1.dropLast e.2.1.data)).path,
        c, hashContent c⟩
    | .error _ => none

/-- The pages whose render failed (per-page `RenderError`s). -/
def errPages (rs : List (Path × PageNode × Except String Content)) : List Path :=
  rs.filterMap fun e => if e.2.2.isOk then none else some e.1

/-- The observable outcome of one `build`/`update` run. -/
structure RunResult where
  writes : List (String × Content)
  hashes : List (Path × String)
  rendered : List Path
  persisted : List (Path × String)
  fired : List EventType
  cancelled : Bool
  errored : Bool
  site : SiteState

/-- Modelled from the spec: `build(watchMode)` dispatches `beforeBuild`
(a falsy listener aborts the remaining phases without error), renders
every page of the loaded tree, dispatches `afterRender`, dispatches
`beforeSave` (a falsy listener prevents every file write of the run),
persists every non-draft successfully rendered page together with the
static-copy mappings, records the content hashes, and dispatches
`afterBuild`.  Loading is modelled as the already-loaded tree, which the
run does not change. -/
def buildRun (s : SiteState) : RunResult :=
  if dispatchEvent s { type := .beforeBuild } then
    let rs := renderAll s s.tree.pages
    let outs := okOuts s rs
    let errs := errPages rs
    let canSave := dispatchEvent s { type := .beforeSave }
    let hashes := outs.map fun o => (o.page, o.hash)
    { writes := if canSave then (outs.map fun o => (o.destPath, o.content)) ++ s.staticFiles else []
      hashes := hashes
      rendered := rs.map fun e => e.1
      persisted := if canSave then hashes else []
      fired := [.beforeBuild, .afterRender, .beforeSave, .afterBuild]
      cancelled := !canSave
      errored := !errs.isEmpty
      site := { s with prevHashes := if canSave then hashes else s.prevHashes } }
  else
    { writes := [], hashes := [], rendered := [], persisted := []
      fired := [.beforeBuild], cancelled := true, errored := false, site := s }

/-- Whether a changed path invalidates the page at `p`: the page itself
changed, or the change sits at an ancestor position of the page (so the
page is a cache-dependent descendant of the change). -/
def affectedBy (files : List Path) (p : Path) : Bool :=
  files.any fun f => f.isPrefixOf p

/-- Modelled from the spec: `update(files)` dispatches `beforeUpdate`
(falsy aborts without error), re-renders exactly the affected pages and
their cache-dependent descendants, dispatches `afterRender` and
`beforeSave`, persists only the pages whose computed output hash differs
from the previously recorded hash, and dispatches `afterUpdate`. -/
def updateRun (s : SiteState) (files : List Path) : RunResult :=
  if dispatchEvent s { type := .beforeUpdate, files := some files } then
    let aff := s.tree.pages.filter fun e => affectedBy files e.1
    let rs := renderAll s aff
    let outs := okOuts s rs
    let errs := errPages rs
    let canSave := dispatchEvent s { type := .beforeSave }
    let changed := outs.filter fun o => !(s.prevHashes.lookup o.page == some o.hash)
    let newHashes := changed.map fun o => (o.page, o.hash)
    { writes := if canSave then changed.map fun o => (o.destPath, o.content) else []
      hashes := outs.map fun o => (o.page, o.hash)
      rendered := rs.map fun e => e.1
      persisted := if canSave then newHashes else []
      fired := [.beforeUpdate, .afterRender, .beforeSave, .afterUpdate]
      cancelled := !canSave
      errored := !errs.isEmpty
      site := { s with prevHashes := if canSave then newHashes ++ s.prevHashes.filter (fun h => !(changed.any fun o => o.page == h.1)) else s.prevHashes } }
  else
    { writes := [], hashes := [], rendered := [], persisted := []
      fired := [.beforeUpdate], cancelled := true, errored := false, site := s }

/-! ## A concrete example site

The spec's example scenario: a source tree whose root `_data` sets
`tags: [site]` and a file `posts/a.md` with local `tags: [post]`.  Stale
values are planted in the memo slots so that cache-refresh claims are
exercised against genuinely stale caches. -/

/-- A deliberately wrong cached value standing for a stale merge. -/
def staleData : Data := { tags := some ["stale"] }

/-- Root directory data: `tags: [site]`. -/
def exampleRootData : Data := { tags := some ["site"] }

/-- Local data of `posts/a.md`: `tags: [post]`. -/
def examplePageData : Data := { tags := some ["post"] }

/-- The page loaded from `posts/a.md`. -/
def examplePage : PageNode where
  src := { path := "posts/a.md", ext := some ".md" }
  dest := { path := "posts/a", ext := "html" }
  data := examplePageData
  cache := some staleData
  content := some (.text "hello")

/-- The example source tree (root and `posts` directories, one page). -/
def exampleTree : SourceTree where
  dirs := [([], { data := exampleRootData, cache := some staleData }), (["posts"], {})]
  pages := [(["posts", "a.md"], examplePage)]

/-- An override bag handed to `duplicate`. -/
def exampleOverride : Data := { tags := some ["featured"] }

/-- A site state over the example tree with no listeners, an engine that
returns content unchanged, and nothing recorded from previous runs. -/
def exampleSite : SiteState where
  tree := exampleTree
  listeners := fun _ => []
  handlerEnv := fun _ _ => true
  scriptEnv := fun _ _ => true
  engine := fun _ c => .ok c
  staticFiles := []
  prevHashes := []

/-- The example site with one cancelling `beforeSave` listener. -/
def cancelSite : SiteState :=
  { exampleSite with
    listeners := fun t => if t = .beforeSave then [.handler 0] else []
    handlerEnv := fun _ _ => false }

/-! ## Claim theorems -/

/-- C1: for every directory `D` and every descendant node `C` of `D`
(directory or page), after `D`'s cached effective data is invalidated and
`refreshCache()` is called on `D`, the effective (merged) data of `C`
equals the merge recomputed from the current raw data of `C` and all its
ancestors — whatever stale values the caches held, so no stale merge
survives a refresh, and the refresh reaches every descendant
transitively. -/
theorem refreshCache_recomputes_descendants (t : SourceTree) (D C : Path)
    (hpre : D.isPrefixOf C = true) :
    (∀ e, t.dirs.lookup C = some e →
      dirEffective (refreshCache (invalidateCache t D) D) C
        = some (computedDirEff t C))
    ∧ (∀ pg, t.pages.lookup C = some pg →
      pageEffective (refreshCache (invalidateCache t D) D) C
        = some (computedPageEff t C.dropLast pg.data)) := by
  constructor
  · intro e he
    unfold dirEffective
    rw [refresh_dirs_lookup, invalidate_dirs_lookup, he]
    simp only [Option.map_some']
    rw [refreshDirEntry_cache (invalidateCache t D) D C (invalidateDirEntry D C e) hpre]
    simp [computedDirEff_invalidate]
  · intro pg hpg
    unfold pageEffective
    rw [refresh_pages_lookup, invalidate_pages, hpg]
    simp only [Option.map_some']
    rw [refreshPageEntry_cache (invalidateCache t D) D C pg hpre]
    simp [refreshPageEntry_data, computedPageEff_invalidate]

/-- Witness for C1 at the example tree: invalidating the root and
refreshing it rewrites the stale caches of the `posts` directory and the
`posts/a.md` page with the pure recomputation. -/
theorem refreshCache_recomputes_descendants_witness :
    dirEffective (refreshCache (invalidateCache exampleTree []) []) ["posts"]
      = some (computedDirEff exampleTree ["posts"])
    ∧ pageEffective (refreshCache (invalidateCache exampleTree []) []) ["posts", "a.md"]
      = some (computedPageEff exampleTree ["posts"] examplePage.data) := by
  constructor
  · exact (refreshCache_recomputes_descendants exampleTree [] ["posts"]
      (by decide)).1 {} rfl
  · exact (refreshCache_recomputes_descendants exampleTree [] ["posts", "a.md"]
      (by decide)).2 examplePage rfl

/-- C2: the `tags` of a node's effective data are exactly the union of
the node's own tag list and the tag lists of all its ancestor
directories, order-independently and duplicate-free; in particular, for
the example tree (root `tags: [site]`, page `tags: [post]`) the page's
effective tags are the set containing exactly `site` and `post`. -/
theorem effective_tags_union (t : SourceTree) (dp : Path) (d : Data) (x : String) :
    (x ∈ tagsOf (computedPageEff t dp d) ↔
      x ∈ tagsOf d ∨ ∃ q ∈ dp.inits, x ∈ tagsOf (dirRaw t q))
    ∧ (tagsOf (computedPageEff t dp d)).Nodup
    ∧ (∀ a b : Data, (tagsOf (mergeData a b)).toFinset = (tagsOf (mergeData b a)).toFinset)
    ∧ (tagsOf (computedPageEff exampleTree ["posts"] examplePageData)).toFinset
        = {"site", "post"} := by
  refine ⟨mem_tagsOf_computedPageEff t dp d x, nodup_tagsOf_merge _ d, ?_, by decide⟩
  intro a b
  ext y
  simp only [List.mem_toFinset, mem_tagsOf_merge]
  exact or_comm

theorem mergeData_shallowMerge (A b d : Data) :
    mergeData A (shallowMerge b d)
      = { shallowMerge (mergeData A b) d with
          tags := mergeTags A.tags (pick d.tags b.tags) } := by
  refine Data.ext rfl ?_ ?_ ?_ ?_ ?_ ?_ ?_ <;>
    simp [mergeData, shallowMerge, mergeEntries, pick_assoc]

/-- C3 as stated is false on the modelled merge: `duplicate` shallow
merges the override over the page's raw data, and the effective data of
the duplicate still unions the ancestors' tags into an overridden `tags`
key, whereas overriding the original's effective data would discard
them.  Concretely, with root tags `[site]`, page tags `[post]` and
override tags `[featured]`, the duplicate's effective tags are
`[site, featured]`, not `[featured]`. -/
theorem duplicate_effective_override_cex :
    computedPageEff exampleTree ["posts"] (examplePage.duplicate exampleOverride).data
      ≠ shallowMerge (computedPageEff exampleTree ["posts"] examplePage.data)
          exampleOverride :=
  fun h => absurd (congrArg Data.tags h) (by decide)

/-- C3 amended: `P.duplicate(d)` yields a page with an independent
identity whose effective data equals `P`'s effective data with `d`'s keys
overridden on every key except `tags`: the `tags` of the duplicate's
effective data still union the ancestors' tags with the overridden local
tag list.  Mutating the page stored at one path never changes the page
stored at any other path, so writing to the duplicate's slot leaves the
original untouched. -/
theorem duplicate_effective_characterization (t : SourceTree) (dp : Path)
    (p : PageNode) (d : Data) :
    (computedPageEff t dp (p.duplicate d).data
      = { shallowMerge (computedPageEff t dp p.data) d with
          tags := mergeTags (computedDirEff t dp).tags (pick d.tags p.data.tags) })
    ∧ (∀ (q r : Path) (f : PageNode → PageNode), r ≠ q →
        lookupPage (modifyPage t q f) r = lookupPage t r) := by
  constructor
  · show computedPageEff t dp (shallowMerge p.data d) = _
    unfold computedPageEff
    exact mergeData_shallowMerge (computedDirEff t dp) p.data d
  · intro q r f h
    exact lookupPage_modifyPage_ne t q r f h

/-- Witness for C3's amended claim at the example tree: the duplicate's
effective data is the overridden effective data with the ancestor tags
unioned back in, and mutating the duplicate's slot leaves the original
page's slot untouched. -/
theorem duplicate_effective_characterization_witness :
    (computedPageEff exampleTree ["posts"] (examplePage.duplicate exampleOverride).data
      = { shallowMerge (computedPageEff exampleTree ["posts"] examplePage.data)
            exampleOverride with
          tags := mergeTags (computedDirEff exampleTree ["posts"]).tags
            (pick exampleOverride.tags examplePage.data.tags) })
    ∧ lookupPage
        (modifyPage exampleTree ["posts", "b.md"] fun pg => { pg with data := staleData })
        ["posts", "a.md"]
      = lookupPage exampleTree ["posts", "a.md"] := by
  constructor
  · exact (duplicate_effective_characterization exampleTree ["posts"]
      examplePage exampleOverride).1
  · exact (duplicate_effective_characterization exampleTree ["posts"]
      examplePage exampleOverride).2 ["posts", "b.md"] ["posts", "a.md"]
      (fun pg => { pg with data := staleData }) (by decide)

theorem dispatchEvent_set_prevHashes (s : SiteState) (h : List (Path × String))
    (e : Event) :
    dispatchEvent { s with prevHashes := h } e = dispatchEvent s e := rfl

theorem renderAll_set_prevHashes (s : SiteState) (h : List (Path × String))
    (ps : List (Path × PageNode)) :
    renderAll { s with prevHashes := h } ps = renderAll s ps := rfl

theorem okOuts_set_prevHashes (s : SiteState) (h : List (Path × String))
    (rs : List (Path × PageNode × Except String Content)) :
    okOuts { s with prevHashes := h } rs = okOuts s rs := rfl

theorem tree_set_prevHashes (s : SiteState) (h : List (Path × String)) :
    SiteState.tree { s with prevHashes := h } = s.tree := rfl

theorem staticFiles_set_prevHashes (s : SiteState) (h : List (Path × String)) :
    SiteState.staticFiles { s with prevHashes := h } = s.staticFiles := rfl

theorem buildRun_ignores_prevHashes (s : SiteState) (h : List (Path × String)) :
    (buildRun { s with prevHashes := h }).writes = (buildRun s).writes
    ∧ (buildRun { s with prevHashes := h }).hashes = (buildRun s).hashes := by
  by_cases hb : dispatchEvent s { type := EventType.beforeBuild } = true
  · constructor <;>
      simp only [buildRun, dispatchEvent_set_prevHashes, renderAll_set_prevHashes,
        okOuts_set_prevHashes, tree_set_prevHashes, staticFiles_set_prevHashes,
        hb, if_true]
  · constructor <;>
      simp [buildRun, dispatchEvent_set_prevHashes, hb]

theorem buildRun_site_shape (s : SiteState) :
    ∃ h, (buildRun s).site = { s with prevHashes := h } := by
  unfold buildRun
  split
  · exact ⟨_, rfl⟩
  · exact ⟨s.prevHashes, rfl⟩

/-- C4: running `build` twice with no source changes between the runs
(the run leaves its own input tree, registries and listener behaviour in
place and only records hashes) produces byte-identical output content for
every persisted page and identical `dest.hash` values across the two
runs. -/
theorem build_idempotent (s : SiteState) :
    (buildRun (buildRun s).site).writes = (buildRun s).writes
    ∧ (buildRun (buildRun s).site).hashes = (buildRun s).hashes := by
  obtain ⟨h, hh⟩ := buildRun_site_shape s
  rw [hh]
  exact buildRun_ignores_prevHashes s h

theorem renderAll_fst (s : SiteState) (ps : List (Path × PageNode)) :
    (renderAll s ps).map (fun e => e.1) = ps.map (fun e => e.1) := by
  simp [renderAll, List.map_map, Function.comp]

theorem okOuts_page (s : SiteState)
    (rs : List (Path × PageNode × Except String Content)) (o : PageOut)
    (ho : o ∈ okOuts s rs) : ∃ e ∈ rs, o.page = e.1 := by
  unfold okOuts at ho
  rcases List.mem_filterMap.mp ho with ⟨e, he, hf⟩
  refine ⟨e, he, ?_⟩
  cases hr : e.2.2 with
  | ok c =>
    rw [hr] at hf
    dsimp only at hf
    by_cases hd : (computedPageEff s.tree e.1.dropLast e.2.1.data).draft = some true
    · rw [if_pos hd] at hf
      cases hf
    · rw [if_neg hd] at hf
      cases hf
      rfl
  | error msg =>
    rw [hr] at hf
    dsimp only at hf
    cases hf

theorem okOuts_renderAll_page (s : SiteState) (ps : List (Path × PageNode))
    (o : PageOut) (ho : o ∈ okOuts s (renderAll s ps)) :
    ∃ e ∈ ps, o.page = e.1 := by
  rcases okOuts_page s _ o ho with ⟨e, he, hp⟩
  rcases List.mem_map.mp he with ⟨e0, he0, rfl⟩
  exact ⟨e0, he0, hp⟩

/-- C5: for every set of changed files, `update(files)` re-renders only
the pages in the invalidated set (pages the changed paths reach: the page
itself or a cache-dependent descendant of a changed position), and
persists only pages whose computed output hash differs from the
previously recorded hash; a page unrelated to the changed files is
neither re-rendered nor re-persisted. -/
theorem update_incremental (s : SiteState) (files : List Path) (p : Path) :
    (affectedBy files p = false →
      p ∉ (updateRun s files).rendered
      ∧ ∀ hsh, (p, hsh) ∉ (updateRun s files).persisted)
    ∧ (∀ hsh, (p, hsh) ∈ (updateRun s files).persisted →
        ¬ s.prevHashes.lookup p = some hsh)
    ∧ (p ∈ (updateRun s files).rendered → affectedBy files p = true) := by
  by_cases hu : dispatchEvent s { type := .beforeUpdate, files := some files } = true
  · have hrend : (updateRun s files).rendered
        = (s.tree.pages.filter fun e => affectedBy files e.1).map fun e => e.1 := by
      simp only [updateRun, hu, if_true]
      exact renderAll_fst s _
    have hmemr : ∀ hp : p ∈ (updateRun s files).rendered, affectedBy files p = true := by
      intro hp
      rw [hrend] at hp
      rcases List.mem_map.mp hp with ⟨e, he, rfl⟩
      exact (List.mem_filter.mp he).2
    have hpers : ∀ hsh, (p, hsh) ∈ (updateRun s files).persisted →
        affectedBy files p = true ∧ ¬ s.prevHashes.lookup p = some hsh := by
      intro hsh hmem
      by_cases hcs : dispatchEvent s { type := .beforeSave } = true
      · simp only [updateRun, hu, if_true, hcs] at hmem
        rcases List.mem_map.mp hmem with ⟨o, ho, hpair⟩
        have hpage : o.page = p := congrArg Prod.fst hpair
        have hhash : o.hash = hsh := congrArg Prod.snd hpair
        have ho2 := List.mem_filter.mp ho
        have hne : ¬ s.prevHashes.lookup o.page = some o.hash := by
          have := ho2.2
          simp only [Bool.not_eq_true'] at this
          exact fun hcontra => by
            rw [hcontra] at this
            simp at this
        rcases okOuts_renderAll_page s _ o ho2.1 with ⟨e, he, hpe⟩
        have haff : affectedBy files e.1 = true := (List.mem_filter.mp he).2
        rw [hpage] at hpe
        rw [hpage, hhash] at hne
        exact ⟨hpe ▸ haff, hne⟩
      · simp only [updateRun, hu, if_true, hcs] at hmem
        simp at hmem
    refine ⟨fun haff => ⟨fun hp => ?_, fun hsh hm => ?_⟩,
      fun hsh hm => (hpers hsh hm).2, hmemr⟩
    · rw [hmemr hp] at haff
      exact Bool.noConfusion haff
    · rw [(hpers hsh hm).1] at haff
      exact Bool.noConfusion haff
  · constructor
    · intro _
      constructor
      · simp [updateRun, hu]
      · intro hsh
        simp [updateRun, hu]
    · constructor
      · intro hsh hm
        simp [updateRun, hu] at hm
      · intro hp
        simp [updateRun, hu] at hp

/-- Witness for C5 at the example site: the page `posts/a.md` is not
re-rendered by an update of the unrelated path `notes`, and the page is
in the invalidated set of an update that changes `posts` itself (where it
is re-rendered). -/
theorem update_incremental_witness :
    ["posts", "a.md"] ∉ (updateRun exampleSite [["notes"]]).rendered
    ∧ affectedBy [["posts"]] ["posts", "a.md"] = true := by
  constructor
  · exact ((update_incremental exampleSite [["notes"]] ["posts", "a.md"]).1
      (by decide)).1
  · exact (update_incremental exampleSite [["posts"]] ["posts", "a.md"]).2.2
      (by decide)

/-- C6: a listener returning a falsy cancellation signal on a cancelable
event type makes the dispatch report cancellation, and a cancelled
`beforeBuild`/`beforeUpdate` aborts the remaining phases of the run — no
render, no write — without reporting an error, while a cancelling
`beforeSave` listener prevents every file write of the run (page outputs
and static copies alike) although `afterBuild`/`afterUpdate` still fires
and, provided the renders themselves succeeded, no error is reported. -/
theorem cancel_aborts_without_error (s : SiteState) (files : List Path) :
    (∀ l ∈ s.listeners EventType.beforeSave,
      listenerResult s l { type := .beforeSave } = false →
      dispatchEvent s { type := .beforeSave } = false)
    ∧ (dispatchEvent s { type := .beforeBuild } = true →
      dispatchEvent s { type := .beforeSave } = false →
      errPages (renderAll s s.tree.pages) = [] →
      (buildRun s).writes = [] ∧ EventType.afterBuild ∈ (buildRun s).fired
        ∧ (buildRun s).errored = false ∧ (buildRun s).cancelled = true)
    ∧ (dispatchEvent s { type := .beforeBuild } = false →
      (buildRun s).writes = [] ∧ (buildRun s).rendered = []
        ∧ (buildRun s).errored = false)
    ∧ (dispatchEvent s { type := .beforeUpdate, files := some files } = true →
      dispatchEvent s { type := .beforeSave } = false →
      errPages (renderAll s (s.tree.pages.filter fun e => affectedBy files e.1)) = [] →
      (updateRun s files).writes = []
        ∧ EventType.afterUpdate ∈ (updateRun s files).fired
        ∧ (updateRun s files).errored = false)
    ∧ (dispatchEvent s { type := .beforeUpdate, files := some files } = false →
      (updateRun s files).writes = [] ∧ (updateRun s files).rendered = []
        ∧ (updateRun s files).errored = false) := by
  refine ⟨?_, ?_, ?_, ?_, ?_⟩
  · intro l hl hres
    cases hall : dispatchEvent s { type := .beforeSave } with
    | false => rfl
    | true =>
      have := List.all_eq_true.mp hall l hl
      rw [hres] at this
      exact Bool.noConfusion this
  · intro hb hc herr
    refine ⟨?_, ?_, ?_, ?_⟩ <;> simp [buildRun, hb, hc, herr]
  · intro hb
    refine ⟨?_, ?_, ?_⟩ <;> simp [buildRun, hb]
  · intro hu hc herr
    refine ⟨?_, ?_, ?_⟩ <;> simp [updateRun, hu, hc, herr]
  · intro hu
    refine ⟨?_, ?_, ?_⟩ <;> simp [updateRun, hu]

/-- Witness for C6: on the example site with a cancelling `beforeSave`
listener, the build writes nothing, still fires `afterBuild`, reports no
error and reports the cancellation. -/
theorem cancel_aborts_without_error_witness :
    (buildRun cancelSite).writes = []
    ∧ EventType.afterBuild ∈ (buildRun cancelSite).fired
    ∧ (buildRun cancelSite).errored = false
    ∧ (buildRun cancelSite).cancelled = true :=
  (cancel_aborts_without_error cancelSite []).2.1 (by decide) (by decide) (by decide)

/-- C7: `getOrCreateDirectory(path)` never fails (it is a total
function), materializes a directory at every prefix of the slash-split
path, returns the leaf directory, and is idempotent: a repeated call with
the same path leaves the tree untouched and returns the same directory
identity. -/
theorem getOrCreateDirectory_spec (t : SourceTree) (s : String) :
    dirExists (getOrCreateDirectory t s).1 (getOrCreateDirectory t s).2 = true
    ∧ (∀ q ∈ (toPath s).inits, dirExists (getOrCreateDirectory t s).1 q = true)
    ∧ getOrCreateDirectory (getOrCreateDirectory t s).1 s = getOrCreateDirectory t s := by
  have hall : ∀ q ∈ (toPath s).inits,
      dirExists (ensureAll t (toPath s).inits) q = true :=
    fun q hq => ensureAll_creates _ t q hq
  refine ⟨?_, hall, ?_⟩
  · exact hall (toPath s) ((List.mem_inits _ _).mpr (List.prefix_refl _))
  · unfold getOrCreateDirectory
    dsimp only
    rw [ensureAll_noop _ _ hall]

/-- Witness for C7 at the example tree: creating `posts/drafts`
materializes the leaf and the root. -/
theorem getOrCreateDirectory_spec_witness :
    dirExists (getOrCreateDirectory exampleTree "posts/drafts").1 ["posts", "drafts"] = true
    ∧ dirExists (getOrCreateDirectory exampleTree "posts/drafts").1 [] = true := by
  constructor
  · exact (getOrCreateDirectory_spec exampleTree "posts/drafts").2.1
      ["posts", "drafts"] (by decide)
  · exact (getOrCreateDirectory_spec exampleTree "posts/drafts").2.1 [] (by decide)

/-- C8: `getFileOrDirectory(path)` resolves a path to the page stored
there (pages shadow directories), or to the directory stored there, and
returns the absent value `none` exactly when no node lives at the path —
not-found is signalled by absence, never by an exception (the function is
total). -/
theorem getFileOrDirectory_total (t : SourceTree) (s : String) :
    (getFileOrDirectory t s = none ↔ hasNode t (toPath s) = false)
    ∧ (∀ pg, t.pages.lookup (toPath s) = some pg →
        getFileOrDirectory t s = some (.pageNode pg))
    ∧ (∀ e, t.pages.lookup (toPath s) = none →
        t.dirs.lookup (toPath s) = some e →
        getFileOrDirectory t s = some (.dirNode e)) := by
  refine ⟨?_, ?_, ?_⟩
  · cases hp : t.pages.lookup (toPath s) <;>
      cases hd : t.dirs.lookup (toPath s) <;>
      simp [getFileOrDirectory, hasNode, hp, hd]
  · intro pg h
    simp [getFileOrDirectory, h]
  · intro e h1 h2
    simp [getFileOrDirectory, h1, h2]

/-- Witness for C8 at the example tree: the path `posts/a.md` resolves to
its page. -/
theorem getFileOrDirectory_total_witness :
    getFileOrDirectory exampleTree "posts/a.md" = some (.pageNode examplePage) :=
  (getFileOrDirectory_total exampleTree "posts/a.md").2.1 examplePage rfl

/-- C9 as stated is false on the declared data model: the `Page`
interface of the source declares `src` as a required property (unlike
`parent?`, `content?` and `document?`, it carries no `?`), so a synthetic
page — here the page generated by `duplicate` — still carries a `src`
origin descriptor rather than an absent one. -/
theorem synthetic_page_src_present_cex :
    srcOf (examplePage.duplicate exampleOverride) ≠ none :=
  fun h => Option.noConfusion h

/-- C9 amended: every page carries a `src` origin descriptor of shape
`{ path, ext?, lastModified?, created? }` — only the components `ext`,
`lastModified` and `created` are optional, never the descriptor itself;
a synthetic page produced by `duplicate` carries its original's
descriptor. -/
theorem page_src_always_present (p : PageNode) (d : Data) :
    srcOf p = some p.src
    ∧ srcOf (p.duplicate d) = some p.src
    ∧ (p.duplicate d).src = p.src :=
  ⟨rfl, rfl, rfl⟩

theorem mem_addListener (ls : List ListenerRef) (l : ListenerRef) :
    l ∈ addListener ls l := by
  unfold addListener
  split
  · assumption
  · simp

theorem addListener_of_mem (ls : List ListenerRef) (l : ListenerRef)
    (h : l ∈ ls) : addListener ls l = ls := by
  unfold addListener
  rw [if_pos h]

theorem count_addListener (ls : List ListenerRef) (l : ListenerRef)
    (h : ls.Nodup) : (addListener ls l).count l = 1 := by
  unfold addListener
  split
  · rename_i hmem
    exact List.count_eq_one_of_mem h hmem
  · rename_i hmem
    rw [List.count_append, List.count_eq_zero_of_not_mem hmem]
    simp

theorem nodup_addListener (ls : List ListenerRef) (l : ListenerRef)
    (h : ls.Nodup) : (addListener ls l).Nodup := by
  unfold addListener
  split
  · exact h
  · rename_i hmem
    simp [List.nodup_append, h, hmem]

theorem addEventListener_listeners (s : SiteState) (t : EventType)
    (l : ListenerRef) :
    (addEventListener s t l).listeners t = addListener (s.listeners t) l := by
  simp [addEventListener]

/-- C10: listener registration has `Set` semantics — registering the same
listener (same function reference or same script-name string) twice for a
type leaves exactly one registration: the second registration is a no-op,
the registered listener appears exactly once, the registration list stays
duplicate-free, and one `dispatchEvent` for that type therefore invokes
every listener at most once. -/
theorem listener_registration_unique (s : SiteState) (t : EventType)
    (l : ListenerRef) (h : (s.listeners t).Nodup) :
    ((addEventListener (addEventListener s t l) t l).listeners t
      = (addEventListener s t l).listeners t)
    ∧ ((addEventListener s t l).listeners t).count l = 1
    ∧ ((addEventListener s t l).listeners t).Nodup
    ∧ (∀ e : Event, e.type = t → ∀ l2 : ListenerRef,
        (invokedListeners (addEventListener s t l) e).count l2 ≤ 1) := by
  refine ⟨?_, ?_, ?_, ?_⟩
  · rw [addEventListener_listeners (addEventListener s t l) t l,
      addEventListener_listeners s t l]
    exact addListener_of_mem _ _ (mem_addListener _ _)
  · rw [addEventListener_listeners]
    exact count_addListener _ _ h
  · rw [addEventListener_listeners]
    exact nodup_addListener _ _ h
  · intro e he l2
    unfold invokedListeners
    rw [he, addEventListener_listeners]
    exact List.nodup_iff_count_le_one.mp (nodup_addListener _ _ h) l2

/-- Witness for C10 at the example site (whose listener registries start
out empty, hence duplicate-free): after registering handler 7 twice for
`afterBuild`, exactly one registration remains. -/
theorem listener_registration_unique_witness :
    ((addEventListener (addEventListener exampleSite .afterBuild (.handler 7))
        .afterBuild (.handler 7)).listeners .afterBuild
      = (addEventListener exampleSite .afterBuild (.handler 7)).listeners .afterBuild)
    ∧ ((addEventListener exampleSite .afterBuild (.handler 7)).listeners
        .afterBuild).count (.handler 7) = 1 :=
  ⟨(listener_registration_unique exampleSite .afterBuild (.handler 7) (by simp [exampleSite])).1,
   (listener_registration_unique exampleSite .afterBuild (.handler 7) (by simp [exampleSite])).2.1⟩

end Lume
